import Mathlib

/-!
Verification development for the operational space controller (OSC) of
`abr_control/controllers/osc.py`.

The controller is embedded shallowly over exact rationals.  numpy 1-D arrays
become `List ℚ`, numpy 2-D arrays become `List (List ℚ)` (row major).  Where
IEEE-754 semantics of numpy are observable (division producing `inf`/`nan` in
the velocity-limiting branch), scalars are embedded as the type `NpF` which
carries the finite rationals together with `inf`, `-inf` and `nan`.
Python exceptions become `Except PyError`.  External collaborators (the
RobotModel, numpy's `linalg` decompositions and the quaternion utility) are
parameters of the embedding, gathered in the structure `OscExt`.
-/

/-- Python exceptions observable in `osc.py`: the length asserts (line 103 and
line 108), the read of the unassigned local `xyz` (line 212), the numpy
broadcast failure (line 213) and scalar division by zero (line 60). -/
inductive PyError where
  | assertionError
  | nameError
  | valueError
  | zeroDivisionError
deriving DecidableEq, Repr

instance {ε α : Type} [DecidableEq ε] [DecidableEq α] : DecidableEq (Except ε α)
  | .ok a, .ok b =>
    if h : a = b then .isTrue (by rw [h]) else .isFalse (by intro hh; cases hh; exact h rfl)
  | .ok _, .error _ => .isFalse (by intro h; cases h)
  | .error _, .ok _ => .isFalse (by intro h; cases h)
  | .error a, .error b =>
    if h : a = b then .isTrue (by rw [h]) else .isFalse (by intro hh; cases hh; exact h rfl)

/-- numpy floating point scalar: a finite (exact) value, the two infinities or
`nan`.  Finite arithmetic is exact rational arithmetic; the infinite and `nan`
cases follow IEEE-754 as implemented by numpy. -/
inductive NpF where
  | fin (q : ℚ)
  | pinf
  | ninf
  | nan
deriving DecidableEq, Repr

namespace NpF

def neg : NpF → NpF
  | fin q => fin (-q)
  | pinf => ninf
  | ninf => pinf
  | nan => nan

def add : NpF → NpF → NpF
  | nan, _ => nan
  | _, nan => nan
  | pinf, ninf => nan
  | ninf, pinf => nan
  | pinf, _ => pinf
  | _, pinf => pinf
  | ninf, _ => ninf
  | _, ninf => ninf
  | fin a, fin b => fin (a + b)

def sub (a b : NpF) : NpF := a.add b.neg

/-- IEEE sign of an infinite-or-finite value for multiplication rules:
`1` for positive, `-1` for negative, `0` for zero. -/
def sgn : NpF → ℚ
  | fin q => if 0 < q then 1 else if q < 0 then -1 else 0
  | pinf => 1
  | ninf => -1
  | nan => 0

def mul : NpF → NpF → NpF
  | nan, _ => nan
  | _, nan => nan
  | fin a, fin b => fin (a * b)
  | a, b =>
    -- at least one infinite factor: inf * 0 = nan, otherwise signed infinity
    if a.sgn * b.sgn = 0 then nan
    else if 0 < a.sgn * b.sgn then pinf else ninf

def div : NpF → NpF → NpF
  | nan, _ => nan
  | _, nan => nan
  | fin a, fin b =>
    if b = 0 then (if 0 < a then pinf else if a < 0 then ninf else nan)
    else fin (a / b)
  | fin _, pinf => fin 0
  | fin _, ninf => fin 0
  | pinf, fin b => if 0 ≤ b then pinf else ninf
  | ninf, fin b => if 0 ≤ b then ninf else pinf
  | pinf, pinf => nan
  | pinf, ninf => nan
  | ninf, pinf => nan
  | ninf, ninf => nan

/-- IEEE `<`: any comparison with `nan` is false. -/
def lt : NpF → NpF → Bool
  | fin a, fin b => a < b
  | fin _, pinf => true
  | ninf, fin _ => true
  | ninf, pinf => true
  | _, _ => false

/-- numpy `np.clip(x, 0, 1) = minimum(maximum(x, 0), 1)`; `nan` propagates. -/
def clip01 : NpF → NpF
  | fin q => if q < 0 then fin 0 else if 1 < q then fin 1 else fin q
  | pinf => fin 1
  | ninf => fin 0
  | nan => nan

end NpF

/-- Scalar division as numpy performs it on floats: a zero denominator yields
a signed infinity (or `nan` for `0/0`) together with a runtime warning, never
an exception. -/
def qdiv (a b : ℚ) : NpF :=
  if b = 0 then (if 0 < a then .pinf else if a < 0 then .ninf else .nan)
  else .fin (a / b)

/-- Python `/` on plain numbers: raises `ZeroDivisionError` on a zero
denominator (used in `__init__` line 60). -/
def pyDiv (a b : ℚ) : Except PyError ℚ :=
  if b = 0 then .error .zeroDivisionError else .ok (a / b)

/-- numpy `np.sign` on an exact scalar. -/
def npSign (x : ℚ) : ℚ := if 0 < x then 1 else if x < 0 then -1 else 0

/- ## Dense list-based linear algebra (the numpy calls of `generate`) -/

def dotQ (r v : List ℚ) : ℚ := (List.zipWith (fun a b => a * b) r v).foldl (· + ·) 0

def matVec (A : List (List ℚ)) (v : List ℚ) : List ℚ := A.map (fun r => dotQ r v)

def colOf (A : List (List ℚ)) (j : ℕ) : List ℚ := A.map (fun r => r.getD j 0)

def transposeM (A : List (List ℚ)) : List (List ℚ) :=
  (List.range (A.headD []).length).map (colOf A)

def matMul (A B : List (List ℚ)) : List (List ℚ) :=
  A.map (fun r => (transposeM B).map (fun c => dotQ r c))

def eyeM (n : ℕ) : List (List ℚ) :=
  (List.range n).map (fun i => (List.range n).map (fun j => if i = j then 1 else 0))

def vecAdd (a b : List ℚ) : List ℚ := List.zipWith (· + ·) a b

def vecSub (a b : List ℚ) : List ℚ := List.zipWith (· - ·) a b

def scalVec (c : ℚ) (v : List ℚ) : List ℚ := v.map (fun x => c * x)

def diagM (d : List ℚ) : List (List ℚ) :=
  (List.range d.length).map (fun i =>
    (List.range d.length).map (fun j => if i = j then d.getD i 0 else 0))

/-- Boolean-mask indexing `xs[mask]` of numpy. -/
def boolMask {α : Type} (mask : List Bool) (xs : List α) : List α :=
  (List.zip mask xs).filterMap (fun p => if p.1 then some p.2 else none)

/-- Number of `True` flags, numpy `np.sum` on a boolean array. -/
def countTrue (mask : List Bool) : ℕ := (mask.filter id).length

/- ## NpF vectors -/

def npDot (r : List ℚ) (v : List NpF) : NpF :=
  (List.zipWith (fun a x => NpF.mul (.fin a) x) r v).foldl NpF.add (.fin 0)

def matVecNp (A : List (List ℚ)) (v : List NpF) : List NpF := A.map (fun r => npDot r v)

def vecAddNp (a b : List NpF) : List NpF := List.zipWith NpF.add a b

def vecSubNp (a b : List NpF) : List NpF := List.zipWith NpF.sub a b

def liftNp (v : List ℚ) : List NpF := v.map NpF.fin

/-- Index of the first minimum, numpy `np.argmin` on a clean (nan-free) array:
scans keeping the current minimum, a later element replaces it only when
strictly smaller. -/
def firstMinIdx : List NpF → ℕ
  | [] => 0
  | [_] => 0
  | x :: xs =>
    let j := firstMinIdx xs
    if NpF.lt (xs.getD j (.fin 0)) x then j + 1 else 0

/-- numpy `np.argmin`: with a `nan` present the position of the first `nan`
is returned, otherwise the position of the first minimum. -/
def argminNp (l : List NpF) : ℕ :=
  match l.findIdx? (fun v => decide (v = NpF.nan)) with
  | some i => i
  | none => firstMinIdx l

/- ## Quaternions (the external `transformations` utility) -/

/-- Quaternion in `[w, x, y, z]` order as used by
`abr_control.utils.transformations`. -/
structure Quat where
  w : ℚ
  x : ℚ
  y : ℚ
  z : ℚ
deriving DecidableEq, Repr

/-- Modelled from the spec: `transformations.quaternion_conjugate` of the
external QuaternionMath utility (§2; the `transformations` module is not under
`src/`): negate the vector part. -/
def quaternion_conjugate (p : Quat) : Quat := ⟨p.w, -p.x, -p.y, -p.z⟩

/-- Modelled from the spec: `transformations.quaternion_multiply` of the
external QuaternionMath utility (§2): the Hamilton product in `[w,x,y,z]`
order. -/
def quaternion_multiply (a b : Quat) : Quat :=
  ⟨a.w * b.w - a.x * b.x - a.y * b.y - a.z * b.z,
   a.w * b.x + a.x * b.w + a.y * b.z - a.z * b.y,
   a.w * b.y - a.x * b.z + a.y * b.w + a.z * b.x,
   a.w * b.z + a.x * b.y - a.y * b.x + a.z * b.w⟩

def Quat.vec (p : Quat) : List ℚ := [p.x, p.y, p.z]

def qneg (p : Quat) : Quat := ⟨-p.w, -p.x, -p.y, -p.z⟩

/-- Lines 156-158 of `osc.py`: the relative rotation quaternion
`q_r = q_d ⊗ conjugate(q_e)` and the orientation part of the task error,
`u_task[3:] = -ko / kp * q_r[1:] * np.sign(q_r[0])`. -/
def orientationError (ko kp : ℚ) (q_d q_e : Quat) : List ℚ :=
  let q_r := quaternion_multiply q_d (quaternion_conjugate q_e)
  q_r.vec.map (fun v => -ko / kp * v * npSign q_r.w)

/- ## External collaborators of `generate` -/

/-- External functions consumed by the controller, gathered in one record:
the RobotModel contract (spec §6), the numpy `linalg` decompositions, and the
two quaternion constructors of the external `transformations` utility that
involve transcendental functions (Euler-angle and rotation-matrix input).
`svd` abstracts `numpy.linalg.svd`, returning `(U, singular values, Vt)`. -/
structure OscExt where
  J : String → List ℚ → List ℚ → List (List ℚ)
  M : List ℚ → List (List ℚ)
  Tx : String → List ℚ → List ℚ → List ℚ
  R : String → List ℚ → List (List ℚ)
  C : List ℚ → List ℚ → List (List ℚ)
  g : List ℚ → List ℚ
  inv : List (List ℚ) → List (List ℚ)
  det : List (List ℚ) → ℚ
  svd : List (List ℚ) → List (List ℚ) × List ℚ × List (List ℚ)
  quaternion_from_euler : ℚ → ℚ → ℚ → Quat
  quaternion_from_matrix : List (List ℚ) → Quat
  unit_vector : Quat → Quat

/-- numpy's reciprocal of singular values under `rcond`: per the numpy
documentation and the source comment (lines 129-130 of `osc.py`), singular
values below `rcond * max(singular_values)` are zeroed, the others
reciprocated. -/
def reciprocalCut (rcond : ℚ) (sv : List ℚ) : List ℚ :=
  let mx := sv.foldl max 0
  sv.map (fun s => if s < rcond * mx then 0 else 1 / s)

/-- Modelled from the numpy documentation: `np.linalg.pinv(A, rcond)` via the
(abstract) SVD `A = U diag(sv) Vt`, reconstructing `Vtᵀ diag(sv⁺) Uᵀ` where
`sv⁺` zeroes the singular values below `rcond * max(sv)`. -/
def npPinv (svd : List (List ℚ) → List (List ℚ) × List ℚ × List (List ℚ))
    (rcond : ℚ) (A : List (List ℚ)) : List (List ℚ) :=
  let dec := svd A
  matMul (transposeM dec.2.2) (matMul (diagM (reciprocalCut rcond dec.2.1)) (transposeM dec.1))

/-- Lines 124-131 of `osc.py`: invert the task-space inertia inverse directly
when its determinant is at least `1e-5` in absolute value, otherwise fall back
to `np.linalg.pinv` with `rcond = 0.005`. -/
def computeMx (E : OscExt) (Mx_inv : List (List ℚ)) : List (List ℚ) :=
  if 1 / 100000 ≤ |E.det Mx_inv| then E.inv Mx_inv
  else npPinv E.svd (1 / 200) Mx_inv

/- ## Task-space error vector (lines 133-174) -/

/-- Shape-preserving write into a length-3 slice (numpy slice assignment keeps
the destination length; the external `Tx` contract supplies 3-vectors). -/
def pad3 (v : List ℚ) : List ℚ := (v ++ [0, 0, 0]).take 3

/-- Lines 133-158 of `osc.py`: build the 6-entry task error `u_task`.  The
position part (written only when one of the first three mask flags is set)
also yields the local variable `xyz`, returned as an `Option` since the
orientation-only path leaves it unassigned.  The orientation part builds the
target quaternion from the Euler angles and the current quaternion from the
rotation matrix of the fixed frame `"EE"`. -/
def buildUTask (E : OscExt) (ko kp : ℚ) (ctrlr_dof : List Bool) (q target : List ℚ)
    (ref_frame : String) (xyz_offset : List ℚ) : Option (List ℚ) × List ℚ :=
  let xyzOpt : Option (List ℚ) :=
    if 0 < countTrue (ctrlr_dof.take 3) then some (E.Tx ref_frame q xyz_offset) else none
  let pos : List ℚ :=
    match xyzOpt with
    | some xyz => pad3 (vecSub xyz (target.take 3))
    | none => [0, 0, 0]
  let ori : List ℚ :=
    if 0 < countTrue (ctrlr_dof.drop 3) then
      let q_d := E.unit_vector (E.quaternion_from_euler (target.getD 3 0) (target.getD 4 0)
        (target.getD 5 0))
      let q_e := E.unit_vector (E.quaternion_from_matrix (E.R "EE" q))
      pad3 (orientationError ko kp q_d q_e)
    else [0, 0, 0]
  (xyzOpt, pos ++ ori)

/- ## Control law branches (lines 176-206) -/

/-- Line 178 of `osc.py`: `sat = vmax / (lamb * np.abs(u_task))`, elementwise
with numpy float division (a zero denominator yields an infinity, not an
exception). -/
def satVec (vmax lamb : ℚ) (u_task : List ℚ) : List NpF :=
  u_task.map (fun ui => qdiv vmax (lamb * |ui|))

/-- Lines 177-194 of `osc.py`: the velocity-limited control law.  Returns the
low-level joint signal (the scalar `0.0`, broadcast to a zero vector) and the
reworked task force.  All scalar work follows numpy float semantics. -/
def vmaxLaw (vmax lamb kp kv : ℚ) (n_ctrlr_dof nJoints : ℕ) (ctrlr_dof : List Bool)
    (J : List (List ℚ)) (dq target_vel : List ℚ) (u_task : List ℚ) :
    List ℚ × List NpF :=
  let sat := satVec vmax lamb u_task
  let scale : List NpF :=
    if sat.any (fun s => NpF.lt s (.fin 1)) then
      let index := argminNp sat
      let unclipped := kp * u_task.getD index 0
      let clipped := kv * vmax * npSign (u_task.getD index 0)
      (List.range n_ctrlr_dof).map (fun j =>
        if j = index then .fin 1 else qdiv clipped unclipped)
    else (List.range n_ctrlr_dof).map (fun _ => .fin 1)
  let dx := matVec J dq
  let tva := boolMask ctrlr_dof target_vel
  let u_task2 : List NpF :=
    (List.range u_task.length).map (fun i =>
      let term := (((NpF.clip01 (NpF.div (sat.getD i (.fin 0)) (scale.getD i (.fin 0)))).mul
        (.fin (-lamb))).mul (scale.getD i (.fin 0))).mul (.fin (u_task.getD i 0))
      (NpF.fin (-kv)).mul (((NpF.fin (dx.getD i 0)).sub (.fin (tva.getD i 0))).sub term))
  (List.replicate nJoints 0, u_task2)

/-- Lines 195-206 of `osc.py`: the control law without velocity limiting.
`u_task *= -kp`; then joint-space damping `u = -kv * M dq` when the full
six-entry `target_vel` is exactly zero (`np.all(target_vel == 0)`), otherwise
task-space velocity compensation and a zero low-level signal. -/
def unlimitedLaw (kp kv : ℚ) (nJoints : ℕ) (ctrlr_dof : List Bool)
    (Mmat J : List (List ℚ)) (dq target_vel : List ℚ) (u_task : List ℚ) :
    List ℚ × List ℚ :=
  let u_task2 := u_task.map (fun x => -kp * x)
  if target_vel.all (fun t => decide (t = 0)) then
    (scalVec (-kv) (matVec Mmat dq), u_task2)
  else
    let dx := matVec J dq
    (List.replicate nJoints 0,
     vecSub u_task2 (scalVec kv (vecSub dx (boolMask ctrlr_dof target_vel))))

/- ## Integral term (lines 208-213) -/

/-- numpy in-place `a -= b` on 1-D arrays: elementwise for equal lengths, a
scalar-like broadcast when `b` has length one, otherwise a broadcast
`ValueError` (the result shape must stay the shape of `a`). -/
def ibSub (a b : List NpF) : Except PyError (List NpF) :=
  if b.length = a.length then .ok (List.zipWith NpF.sub a b)
  else if b.length = 1 then .ok (a.map (fun x => NpF.sub x (b.headD (.fin 0))))
  else .error .valueError

/-- Lines 208-213 of `osc.py`: when `ki != 0`, accumulate
`target[:3] - xyz` into the persistent integrated error, then subtract
`ki * integrated_error` in place from the (already mask-restricted) task
force.  Reading `xyz` fails with a `NameError` when the position branch never
assigned it; the in-place subtraction fails when the shapes do not
broadcast. -/
def integralStep (ki : ℚ) (st : List ℚ) (xyzOpt : Option (List ℚ))
    (target : List ℚ) (u_task : List NpF) : Except PyError (List ℚ × List NpF) :=
  if ki = 0 then .ok (st, u_task)
  else
    match xyzOpt with
    | none => .error .nameError
    | some xyz =>
      let st2 := vecAdd st (vecSub (target.take 3) xyz)
      match ibSub u_task (st2.map (fun s => NpF.fin (ki * s))) with
      | .ok u2 => .ok (st2, u2)
      | .error e => .error e

/- ## Construction (lines 47-80) and the per-tick state -/

/-- The immutable configuration held by an `OSC` instance after
`__init__`. -/
structure Config where
  kp : ℚ
  ko : ℚ
  kv : ℚ
  ki : ℚ
  lamb : ℚ
  vmax : Option ℚ
  ctrlr_dof : List Bool
  n_ctrlr_dof : ℕ
  nJoints : ℕ
  use_g : Bool
  use_C : Bool
deriving DecidableEq, Repr

/-- Lines 47-80 of `osc.py` (`OSC.__init__`): gain defaulting
(`ko = kp`, `kv = sqrt(kp + ko)` via the external `np.sqrt`, passed in as
`sqrtFn`), the derived `lamb = kp / kv` (Python division, so a
`ZeroDivisionError` when `kv = 0`), the default position-only mask, and the
flag count.  The under-actuation check only prints a warning and is not
modelled.  No gain validation of any kind is performed. -/
def OSC.init (sqrtFn : ℚ → ℚ) (nJoints : ℕ) (kp : ℚ) (ko kv : Option ℚ) (ki : ℚ)
    (vmax : Option ℚ) (ctrlr_dof : Option (List Bool)) (use_g use_C : Bool) :
    Except PyError Config :=
  let ko := ko.getD kp
  let kv := kv.getD (sqrtFn (kp + ko))
  match pyDiv kp kv with
  | .error e => .error e
  | .ok lamb =>
    let mask := ctrlr_dof.getD [true, true, true, false, false, false]
    .ok ⟨kp, ko, kv, ki, lamb, vmax, mask, countTrue mask, nJoints, use_g, use_C⟩

/- ## The per-tick control law `OSC.generate` (lines 83-248) -/

/-- Lines 83-248 of `osc.py`: one tick of the operational space controller.
Inputs are the joint state, the 6-entry task target and optional velocity,
the reference frame and offset, the list of secondary (null space)
controllers (`[]` models Python `None`), and the persistent
`integrated_error` 3-vector.  Returns the joint torque, the training signal
snapshot and the new integrated error, or the Python exception raised. -/
def OSC.generate (E : OscExt) (cfg : Config)
    (nullCtrls : List (List ℚ → List ℚ → List ℚ)) (integrated_error : List ℚ)
    (q dq target : List ℚ) (target_vel : Option (List ℚ)) (ref_frame : String)
    (xyz_offset : Option (List ℚ)) :
    Except PyError (List NpF × List NpF × List ℚ) :=
  -- line 103: assert target has six entries
  if target.length ≠ 6 then .error .assertionError
  else
  -- lines 105-108: default and validate target_vel
  match (match target_vel with
    | none => .ok (List.replicate 6 (0 : ℚ))
    | some tv => if tv.length ≠ 6 then .error .assertionError else .ok tv :
    Except PyError (List ℚ)) with
  | .error e => .error e
  | .ok target_vel =>
  -- lines 110-111: default xyz_offset
  let xyz_offset := xyz_offset.getD [0, 0, 0]
  -- lines 113-116: Jacobian, mask-restricted rows
  let J := boolMask cfg.ctrlr_dof (E.J ref_frame q xyz_offset)
  -- lines 118-131: joint and task space inertia
  let Mmat := E.M q
  let M_inv := E.inv Mmat
  let Mx_inv := matMul J (matMul M_inv (transposeM J))
  let Mx := computeMx E Mx_inv
  -- lines 133-174: task error, restricted to the controlled DOF
  let built := buildUTask E cfg.ko cfg.kp cfg.ctrlr_dof q target ref_frame xyz_offset
  let u_task0 := boolMask cfg.ctrlr_dof built.2
  -- lines 176-206: control law, velocity-limited or not
  let law : List ℚ × List NpF :=
    match cfg.vmax with
    | some vmax =>
      vmaxLaw vmax cfg.lamb cfg.kp cfg.kv cfg.n_ctrlr_dof cfg.nJoints cfg.ctrlr_dof
        J dq target_vel u_task0
    | none =>
      let r := unlimitedLaw cfg.kp cfg.kv cfg.nJoints cfg.ctrlr_dof Mmat J dq
        target_vel u_task0
      (r.1, liftNp r.2)
  -- lines 208-213: integral term
  match integralStep cfg.ki integrated_error built.1 target law.2 with
  | .error e => .error e
  | .ok stepped =>
  -- line 216: map the task force to joint space and add the low-level signal
  let u1 := vecAddNp (liftNp law.1) (matVecNp (transposeM J) (matVecNp Mx stepped.2))
  -- lines 219-220: Coriolis / centripetal compensation
  let u2 := if cfg.use_C then vecSubNp u1 (liftNp (matVec (E.C q dq) dq)) else u1
  -- line 225: training signal snapshot (before gravity and null space terms)
  let training := u2
  -- lines 228-230: gravity compensation
  let u3 := if cfg.use_g then vecSubNp u2 (liftNp (E.g q)) else u2
  -- lines 238-246: secondary controllers through the null space filter
  let u4 := nullCtrls.foldl (fun acc c =>
    let Jbar := matMul M_inv (matMul (transposeM J) Mx)
    let null_filter := List.zipWith vecSub (eyeM cfg.nJoints) (matMul (transposeM J) (transposeM Jbar))
    vecAddNp acc (liftNp (matVec null_filter (c q dq)))) u3
  .ok (u4, training, stepped.1)

/- ## Algebraic layer: the null space projector formulas of lines 123 and
243-244, restated over `Matrix` for the algebraic claim.  `J` is the
mask-restricted Jacobian (`m` controlled dimensions, `n` joints), `M_inv` the
joint-space inertia inverse and `Mx` the task-space inertia. -/

open Matrix in
/-- Line 123 of `osc.py`: `Mx_inv = np.dot(J, np.dot(M_inv, J.T))`. -/
def mxInvAlg {m n : ℕ} (J : Matrix (Fin m) (Fin n) ℚ)
    (M_inv : Matrix (Fin n) (Fin n) ℚ) : Matrix (Fin m) (Fin m) ℚ :=
  J * M_inv * Jᵀ

open Matrix in
/-- Line 243 of `osc.py`: `Jbar = np.dot(M_inv, np.dot(J.T, Mx))`. -/
def jbarAlg {m n : ℕ} (M_inv : Matrix (Fin n) (Fin n) ℚ)
    (J : Matrix (Fin m) (Fin n) ℚ) (Mx : Matrix (Fin m) (Fin m) ℚ) :
    Matrix (Fin n) (Fin m) ℚ :=
  M_inv * Jᵀ * Mx

open Matrix in
/-- Line 244 of `osc.py`: `null_filter = IDENTITY_N_JOINTS - np.dot(J.T, Jbar.T)`. -/
def nullFilterAlg {m n : ℕ} (J : Matrix (Fin m) (Fin n) ℚ)
    (Jb : Matrix (Fin n) (Fin m) ℚ) : Matrix (Fin n) (Fin n) ℚ :=
  1 - Jᵀ * Jbᵀ

/-- Lines 238-246 of `osc.py`: the loop over the secondary controllers adds
the filtered signal of each to the running torque; the filter is rebuilt each
iteration from the same `M_inv`, `J` and `Mx`, so every secondary signal goes
through the same primary-task projector. -/
def nullLoopAlg {m n : ℕ} (J : Matrix (Fin m) (Fin n) ℚ)
    (M_inv : Matrix (Fin n) (Fin n) ℚ) (Mx : Matrix (Fin m) (Fin m) ℚ)
    (u : Fin n → ℚ) (us : List (Fin n → ℚ)) : Fin n → ℚ :=
  us.foldl (fun acc un => acc + (nullFilterAlg J (jbarAlg M_inv J Mx)).mulVec un) u

/- ## Helper lemmas -/

theorem npSignNeg (x : ℚ) : npSign (-x) = -npSign x := by
  unfold npSign
  rcases lt_trichotomy 0 x with h | h | h
  · rw [if_neg (by linarith), if_pos (by linarith), if_pos h]
    try norm_num
  · rw [if_neg (by linarith), if_neg (by linarith), if_neg (by linarith),
      if_neg (by linarith)]
    try norm_num
  · rw [if_pos (by linarith), if_neg (by linarith), if_pos (by linarith)]
    try norm_num

theorem quatConjQneg (b : Quat) :
    quaternion_conjugate (qneg b) = qneg (quaternion_conjugate b) := by
  simp [quaternion_conjugate, qneg]

theorem quatMulQnegRight (a b : Quat) :
    quaternion_multiply a (qneg b) = qneg (quaternion_multiply a b) := by
  simp only [quaternion_multiply, qneg, Quat.mk.injEq]
  refine ⟨by ring, by ring, by ring, by ring⟩

theorem quatMulQnegLeft (a b : Quat) :
    quaternion_multiply (qneg a) b = qneg (quaternion_multiply a b) := by
  simp only [quaternion_multiply, qneg, Quat.mk.injEq]
  refine ⟨by ring, by ring, by ring, by ring⟩

theorem quatMulConjSelf (p : Quat) :
    quaternion_multiply p (quaternion_conjugate p)
      = ⟨p.w * p.w + p.x * p.x + p.y * p.y + p.z * p.z, 0, 0, 0⟩ := by
  simp only [quaternion_multiply, quaternion_conjugate, Quat.mk.injEq]
  refine ⟨by ring, by ring, by ring, by ring⟩

theorem drop3Append (a b : List ℚ) (h : a.length = 3) : (a ++ b).drop 3 = b := by
  rw [← h, List.drop_left]

theorem npfLtIrrefl (a : NpF) : NpF.lt a a = false := by
  cases a <;> simp [NpF.lt]

theorem npfLtAsymm {a b : NpF} (h : NpF.lt a b = true) : NpF.lt b a = false := by
  cases a <;> cases b <;> simp_all [NpF.lt] <;> linarith

theorem npfNotLtTrans {a b c : NpF} (hab : NpF.lt a b = false) (hbc : NpF.lt b c = false)
    (hna : a ≠ NpF.nan) (hnb : b ≠ NpF.nan) (hnc : c ≠ NpF.nan) :
    NpF.lt a c = false := by
  cases a <;> cases b <;> cases c <;> simp_all [NpF.lt] <;> linarith

theorem npfLtOfNotLtOfLt {a b c : NpF} (hab : NpF.lt a b = false) (hac : NpF.lt a c = true)
    (hna : a ≠ NpF.nan) (hnb : b ≠ NpF.nan) (hnc : c ≠ NpF.nan) :
    NpF.lt b c = true := by
  cases a <;> cases b <;> cases c <;> simp_all [NpF.lt] <;> linarith

theorem firstMinIdxLtLength : ∀ l : List NpF, l ≠ [] → firstMinIdx l < l.length
  | [], h => absurd rfl h
  | [_], _ => by simp [firstMinIdx]
  | x :: b :: bs, _ => by
    have ih := firstMinIdxLtLength (b :: bs) (by simp)
    by_cases hc : NpF.lt ((b :: bs).getD (firstMinIdx (b :: bs)) (.fin 0)) x = true
    · simp only [firstMinIdx, hc, if_true]
      simpa using Nat.succ_lt_succ ih
    · simp only [firstMinIdx, hc]
      simp

theorem firstMinIdxMin : ∀ l : List NpF, (∀ z ∈ l, z ≠ NpF.nan) →
    ∀ y ∈ l, NpF.lt y (l.getD (firstMinIdx l) (.fin 0)) = false := by
  intro l
  induction l with
  | nil => intro _ y hy; cases hy
  | cons x xs ih =>
    cases xs with
    | nil =>
      intro _ y hy
      simp only [List.mem_singleton] at hy
      subst hy
      simp [firstMinIdx, npfLtIrrefl]
    | cons b bs =>
      intro hn y hy
      have hntail : ∀ z ∈ b :: bs, z ≠ NpF.nan := fun z hz => hn z (List.mem_cons_of_mem _ hz)
      have hjlen : firstMinIdx (b :: bs) < (b :: bs).length :=
        firstMinIdxLtLength _ (by simp)
      have hmmem : (b :: bs).getD (firstMinIdx (b :: bs)) (.fin 0) ∈ (b :: bs) := by
        rw [List.getD_eq_getElem _ _ hjlen]
        exact List.getElem_mem hjlen
      have hmn : (b :: bs).getD (firstMinIdx (b :: bs)) (.fin 0) ≠ NpF.nan := hntail _ hmmem
      rcases List.mem_cons.mp hy with rfl | hy2
      · by_cases hc : NpF.lt ((b :: bs).getD (firstMinIdx (b :: bs)) (.fin 0)) y = true
        · show NpF.lt y ((y :: b :: bs).getD (firstMinIdx (y :: b :: bs)) (.fin 0)) = false
          simp only [firstMinIdx, hc, if_true]
          rw [List.getD_cons_succ]
          exact npfLtAsymm hc
        · show NpF.lt y ((y :: b :: bs).getD (firstMinIdx (y :: b :: bs)) (.fin 0)) = false
          simp only [firstMinIdx, hc]
          simp [npfLtIrrefl]
      · by_cases hc : NpF.lt ((b :: bs).getD (firstMinIdx (b :: bs)) (.fin 0)) x = true
        · simp only [firstMinIdx, hc, if_true]
          rw [List.getD_cons_succ]
          exact ih hntail y hy2
        · have h1 : NpF.lt y ((b :: bs).getD (firstMinIdx (b :: bs)) (.fin 0)) = false :=
            ih hntail y hy2
          have h2 : NpF.lt ((b :: bs).getD (firstMinIdx (b :: bs)) (.fin 0)) x = false := by
            simpa using hc
          have h3 := npfNotLtTrans h1 h2 (hntail y hy2) hmn (hn x (List.mem_cons_self x _))
          simp only [firstMinIdx, hc]
          simpa using h3

theorem qdivPosNeNan (vmax x : ℚ) (hv : 0 < vmax) : qdiv vmax x ≠ NpF.nan := by
  unfold qdiv
  by_cases hx : x = 0
  · rw [if_pos hx, if_pos hv]
    simp
  · rw [if_neg hx]
    simp

/- ## Concrete fixtures for witnesses and counterexamples: a two joint model
whose first task dimension moves joint one only (`fixJ2`), a variant with a
different gravity vector (`fixJ2g`), and a model whose Jacobian spans both
joints over all six task rows (`fixJ6`). -/

def fixJ2 : OscExt :=
  ⟨fun _ _ _ => [[1, 0], [0, 0], [0, 0], [0, 0], [0, 0], [0, 0]],
   fun _ => [[1, 0], [0, 1]],
   fun _ _ _ => [0, 0, 0],
   fun _ _ => [[1, 0, 0], [0, 1, 0], [0, 0, 1]],
   fun _ _ => [[0, 0], [0, 0]],
   fun _ => [0, 0],
   id, fun _ => 1, fun A => (A, [], A),
   fun _ _ _ => ⟨1, 0, 0, 0⟩, fun _ => ⟨1, 0, 0, 0⟩, id⟩

def fixJ2g : OscExt :=
  ⟨fun _ _ _ => [[1, 0], [0, 0], [0, 0], [0, 0], [0, 0], [0, 0]],
   fun _ => [[1, 0], [0, 1]],
   fun _ _ _ => [0, 0, 0],
   fun _ _ => [[1, 0, 0], [0, 1, 0], [0, 0, 1]],
   fun _ _ => [[0, 0], [0, 0]],
   fun _ => [1, 1],
   id, fun _ => 1, fun A => (A, [], A),
   fun _ _ _ => ⟨1, 0, 0, 0⟩, fun _ => ⟨1, 0, 0, 0⟩, id⟩

def fixJ6 : OscExt :=
  ⟨fun _ _ _ => [[1, 0], [0, 1], [0, 0], [0, 0], [0, 0], [0, 0]],
   fun _ => [[1, 0], [0, 1]],
   fun _ _ _ => [0, 0, 0],
   fun _ _ => [[1, 0, 0], [0, 1, 0], [0, 0, 1]],
   fun _ _ => [[0, 0], [0, 0]],
   fun _ => [0, 0],
   id, fun _ => 1, fun A => (A, [], A),
   fun _ _ _ => ⟨1, 0, 0, 0⟩, fun _ => ⟨1, 0, 0, 0⟩, id⟩

/- ## The claims -/

/-- Claim C1: after computing `Mx_inv = J M_inv Jᵀ`, the controller inverts
`Mx_inv` directly exactly when `|det(Mx_inv)| ≥ 1e-5`, and otherwise computes
the damped pseudo-inverse with `rcond = 0.005`, whose reciprocal-singular-value
step zeroes every singular value smaller than `0.005` times the largest one;
the two branch conditions are mutually exclusive and exhaustive, so exactly one
branch produces `Mx`. -/
theorem osc_mx_inversion_branching (E : OscExt) (Mxi : List (List ℚ)) :
    (1 / 100000 ≤ |E.det Mxi| → computeMx E Mxi = E.inv Mxi) ∧
    (|E.det Mxi| < 1 / 100000 → computeMx E Mxi = npPinv E.svd (1 / 200) Mxi) ∧
    ¬(1 / 100000 ≤ |E.det Mxi| ∧ |E.det Mxi| < 1 / 100000) ∧
    (1 / 100000 ≤ |E.det Mxi| ∨ |E.det Mxi| < 1 / 100000) ∧
    (∀ rcond : ℚ, ∀ sv : List ℚ, ∀ i : ℕ, i < sv.length →
      sv.getD i 0 < rcond * sv.foldl max 0 →
      (reciprocalCut rcond sv).getD i 0 = 0) := by
  refine ⟨fun h => by unfold computeMx; rw [if_pos h],
    fun h => by unfold computeMx; rw [if_neg (not_le.mpr h)],
    fun hh => absurd hh.1 (not_le.mpr hh.2), le_or_lt _ _, ?_⟩
  intro rcond sv i hi hlt
  rw [List.getD_eq_getElem?_getD] at hlt ⊢
  rw [List.getElem?_eq_getElem hi] at hlt
  rw [List.getElem?_eq_getElem (by simpa [reciprocalCut] using hi)]
  simp only [Option.getD_some] at hlt ⊢
  simp only [reciprocalCut, List.getElem_map]
  exact if_pos hlt

unseal Rat.add Rat.mul Rat.sub Rat.inv in
/-- Witness for C1 at a concrete matrix and singular value list: the direct
branch fires at determinant `1`, and the reciprocal cut zeroes the singular
value `1/1000` which is below `0.005 * 1`. -/
theorem osc_mx_inversion_branching_witness :
    ((1 : ℚ) / 100000 ≤ |fixJ2.det [[1]]| ∧ (1 : ℚ) / 1000 < 1 / 200 * 1 ∧
      [(1 : ℚ), 1 / 1000].foldl max 0 = 1) ∧
    computeMx fixJ2 [[1]] = fixJ2.inv [[1]] ∧
    (reciprocalCut (1 / 200) [1, 1 / 1000]).getD 1 0 = 0 := by
  refine ⟨⟨by decide, by decide, by decide⟩,
    (osc_mx_inversion_branching fixJ2 [[1]]).1 (by decide),
    (osc_mx_inversion_branching fixJ2 [[1]]).2.2.2.2 (1 / 200) [1, 1 / 1000] 1
      (by decide) ?_⟩
  rw [show ([(1 : ℚ), 1 / 1000].foldl max 0) = 1 by decide]
  decide

/-- Claim C2: the orientation error of `generate` is the vector part of
`q_r = q_target ⊗ conjugate(q_current)` scaled by `-(ko/kp) * sign(q_r.scalar)`;
replacing the current quaternion by its negation (the other representative of
the same rotation under the quaternion double cover) leaves the error
unchanged, and the error is the zero vector whenever the target orientation
equals the current orientation (same or negated quaternion). -/
theorem osc_orientation_error_double_cover (ko kp : ℚ) (q_d q_e p : Quat) :
    orientationError ko kp q_d (qneg q_e) = orientationError ko kp q_d q_e ∧
    orientationError ko kp p p = [0, 0, 0] ∧
    orientationError ko kp (qneg p) p = [0, 0, 0] := by
  refine ⟨?_, ?_, ?_⟩
  · unfold orientationError
    rw [quatConjQneg, quatMulQnegRight]
    simp only [Quat.vec, qneg, List.map, npSignNeg]
    norm_num
  · unfold orientationError
    rw [quatMulConjSelf]
    simp [Quat.vec]
  · unfold orientationError
    rw [quatMulQnegLeft, quatMulConjSelf]
    simp [Quat.vec, qneg]

open Matrix in
/-- Claim C3 (amended): when the joint-space inertia inverse is symmetric (as
for a physical mass matrix) and `Mx` is the exact inverse of
`Mx_inv = J M_inv Jᵀ`, the null space filter `N = I - Jᵀ Jbarᵀ` built from
`Jbar = M_inv Jᵀ Mx` satisfies `J M_inv N = 0`, and the secondary-controller
loop applies this same filter to every secondary torque and sums the filtered
results onto the running torque (no nesting). -/
theorem osc_null_projector_filtered_sum {m n : ℕ} (J : Matrix (Fin m) (Fin n) ℚ)
    (M_inv : Matrix (Fin n) (Fin n) ℚ) (Mx : Matrix (Fin m) (Fin m) ℚ)
    (u : Fin n → ℚ) (us : List (Fin n → ℚ))
    (hsym : M_inv.IsSymm) (hinv : Mx * mxInvAlg J M_inv = 1) :
    J * M_inv * nullFilterAlg J (jbarAlg M_inv J Mx) = 0 ∧
    nullLoopAlg J M_inv Mx u us
      = u + (nullFilterAlg J (jbarAlg M_inv J Mx)).mulVec us.sum := by
  have hsymEq : M_invᵀ = M_inv := hsym
  have hT : (mxInvAlg J M_inv)ᵀ = mxInvAlg J M_inv := by
    unfold mxInvAlg
    rw [Matrix.transpose_mul, Matrix.transpose_mul, Matrix.transpose_transpose, hsymEq,
      ← Matrix.mul_assoc]
  have hinvT : mxInvAlg J M_inv * Mxᵀ = 1 := by
    have h2 := congrArg Matrix.transpose hinv
    rw [Matrix.transpose_mul, Matrix.transpose_one, hT] at h2
    exact h2
  constructor
  · unfold nullFilterAlg jbarAlg
    rw [Matrix.mul_sub, Matrix.mul_one, sub_eq_zero]
    rw [Matrix.transpose_mul, Matrix.transpose_mul, Matrix.transpose_transpose, hsymEq]
    calc J * M_inv = (1 : Matrix (Fin m) (Fin m) ℚ) * (J * M_inv) := (Matrix.one_mul _).symm
      _ = (mxInvAlg J M_inv * Mxᵀ) * (J * M_inv) := by rw [hinvT]
      _ = ((J * M_inv * Jᵀ) * Mxᵀ) * (J * M_inv) := rfl
      _ = J * M_inv * (Jᵀ * (Mxᵀ * (J * M_inv))) := by simp [Matrix.mul_assoc]
  · unfold nullLoopAlg
    induction us generalizing u with
    | nil => simp
    | cons a as ih =>
      simp only [List.foldl_cons, List.sum_cons]
      rw [ih, Matrix.mulVec_add]
      abel

/-- Counterexample to C3 as frozen: with the non-symmetric joint inertia
inverse `[[1,1],[0,1]]`, `J = [[1,0]]` and `Mx = [[1]]`, `Mx` is the exact
two-sided inverse of `Mx_inv`, yet `J M_inv N ≠ 0`: the exact-inverse
hypothesis alone does not make the projector annihilate task-space forces. -/
theorem osc_null_projector_asym_counterexample :
    (!![(1 : ℚ)] : Matrix (Fin 1) (Fin 1) ℚ) * mxInvAlg !![(1 : ℚ), 0] !![(1 : ℚ), 1; 0, 1] = 1 ∧
    mxInvAlg !![(1 : ℚ), 0] !![(1 : ℚ), 1; 0, 1] * !![(1 : ℚ)] = 1 ∧
    !![(1 : ℚ), 0] * !![(1 : ℚ), 1; 0, 1] *
      nullFilterAlg !![(1 : ℚ), 0] (jbarAlg !![(1 : ℚ), 1; 0, 1] !![(1 : ℚ), 0] !![(1 : ℚ)]) ≠ 0 := by
  refine ⟨?_, ?_, ?_⟩
  · ext i j
    fin_cases i
    fin_cases j
    simp [mxInvAlg, Matrix.mul_apply, Fin.sum_univ_succ, Matrix.one_apply,
      Matrix.vecHead, Matrix.vecTail, Matrix.transpose_apply]
  · ext i j
    fin_cases i
    fin_cases j
    simp [mxInvAlg, Matrix.mul_apply, Fin.sum_univ_succ, Matrix.one_apply,
      Matrix.vecHead, Matrix.vecTail, Matrix.transpose_apply]
  · intro h
    have h01 := congrFun (congrFun h 0) 1
    simp [mxInvAlg, jbarAlg, nullFilterAlg, Matrix.mul_apply, Fin.sum_univ_succ,
      Matrix.one_apply, Matrix.vecHead, Matrix.vecTail, Matrix.transpose_apply] at h01

/-- Witness for the amended C3 at a symmetric inertia inverse: both hypotheses
hold for `M_inv = I`, `J = [[1,0]]`, `Mx = [[1]]`, and the conclusions follow
by the theorem. -/
theorem osc_null_projector_filtered_sum_witness :
    ((!![(1 : ℚ), 0; 0, 1]).IsSymm ∧
      (!![(1 : ℚ)] : Matrix (Fin 1) (Fin 1) ℚ) * mxInvAlg !![(1 : ℚ), 0] !![(1 : ℚ), 0; 0, 1] = 1) ∧
    !![(1 : ℚ), 0] * !![(1 : ℚ), 0; 0, 1] *
      nullFilterAlg !![(1 : ℚ), 0] (jbarAlg !![(1 : ℚ), 0; 0, 1] !![(1 : ℚ), 0] !![(1 : ℚ)]) = 0 ∧
    nullLoopAlg !![(1 : ℚ), 0] !![(1 : ℚ), 0; 0, 1] !![(1 : ℚ)] ![0, 0] [![1, 2]]
      = ![0, 0] + (nullFilterAlg !![(1 : ℚ), 0]
          (jbarAlg !![(1 : ℚ), 0; 0, 1] !![(1 : ℚ), 0] !![(1 : ℚ)])).mulVec ([![(1 : ℚ), 2]].sum) := by
  have hsym : (!![(1 : ℚ), 0; 0, 1]).IsSymm := by
    ext i j
    fin_cases i <;> fin_cases j <;> rfl
  have hinv : (!![(1 : ℚ)] : Matrix (Fin 1) (Fin 1) ℚ) * mxInvAlg !![(1 : ℚ), 0] !![(1 : ℚ), 0; 0, 1] = 1 := by
    ext i j
    fin_cases i
    fin_cases j
    simp [mxInvAlg, Matrix.mul_apply, Fin.sum_univ_succ, Matrix.one_apply,
      Matrix.vecHead, Matrix.vecTail, Matrix.transpose_apply]
  exact ⟨⟨hsym, hinv⟩, (osc_null_projector_filtered_sum _ _ _ ![0, 0] [![1, 2]] hsym hinv).1,
    (osc_null_projector_filtered_sum _ _ _ ![0, 0] [![1, 2]] hsym hinv).2⟩

/-- Claim C4: in the velocity-limited branch the saturation ratio
`sat_i = vmax / (lamb * |u_task_i|)` of an active dimension with exactly zero
task error evaluates to `+inf` (numpy float division, no fault and no `nan`),
such a dimension never satisfies `sat_i < 1`, and whenever some dimension does
satisfy `sat < 1` the binding dimension chosen by `argmin` has a nonzero task
error — zero-error dimensions are non-binding. -/
theorem osc_velocity_sat_zero_guard (vmax lamb : ℚ) (ut : List ℚ) (i : ℕ)
    (hv : 0 < vmax) :
    (i < ut.length → ut.getD i 0 = 0 → (satVec vmax lamb ut).getD i (.fin 0) = .pinf) ∧
    (i < ut.length → ut.getD i 0 = 0 →
      NpF.lt ((satVec vmax lamb ut).getD i (.fin 0)) (.fin 1) = false) ∧
    (∀ j : ℕ, (satVec vmax lamb ut).getD j (.fin 0) ≠ .nan) ∧
    ((satVec vmax lamb ut).any (fun s => NpF.lt s (.fin 1)) = true →
      ut.getD (argminNp (satVec vmax lamb ut)) 0 ≠ 0) := by
  have hgetD : ∀ j : ℕ, j < ut.length →
      (satVec vmax lamb ut).getD j (.fin 0) = qdiv vmax (lamb * |ut.getD j 0|) := by
    intro j hj
    rw [List.getD_eq_getElem _ _ (by simpa [satVec] using hj),
      List.getD_eq_getElem _ _ hj]
    simp [satVec]
  have hpinf : ∀ j : ℕ, j < ut.length → ut.getD j 0 = 0 →
      (satVec vmax lamb ut).getD j (.fin 0) = .pinf := by
    intro j hj hz
    rw [hgetD j hj, hz]
    simp [qdiv, hv]
  have hnan : ∀ j : ℕ, (satVec vmax lamb ut).getD j (.fin 0) ≠ .nan := by
    intro j
    by_cases hj : j < ut.length
    · rw [hgetD j hj]
      exact qdivPosNeNan _ _ hv
    · rw [List.getD_eq_default _ _ (by simpa [satVec] using hj)]
      simp
  refine ⟨hpinf i, ?_, hnan, ?_⟩
  · intro hi hz
    rw [hpinf i hi hz]
    simp [NpF.lt]
  · intro hany
    set sat := satVec vmax lamb ut with hsat
    have hnanMem : ∀ z ∈ sat, z ≠ NpF.nan := by
      intro z hz
      rcases List.mem_iff_getElem.mp hz with ⟨j, hj, rfl⟩
      have := hnan j
      rwa [List.getD_eq_getElem _ _ hj] at this
    have hidx : argminNp sat = firstMinIdx sat := by
      unfold argminNp
      rw [List.findIdx?_eq_none_iff.mpr ?_]
      intro x hx
      simpa using hnanMem x hx
    rcases List.any_eq_true.mp hany with ⟨s0, hs0mem, hs0lt⟩
    have hne : sat ≠ [] := by
      intro h
      rw [h] at hs0mem
      cases hs0mem
    have hmin := firstMinIdxMin sat hnanMem s0 hs0mem
    have hi0len : firstMinIdx sat < sat.length := firstMinIdxLtLength sat hne
    have hutlen : sat.length = ut.length := by simp [hsat, satVec]
    have hm_mem : sat.getD (firstMinIdx sat) (.fin 0) ∈ sat := by
      rw [List.getD_eq_getElem _ _ hi0len]
      exact List.getElem_mem hi0len
    have hmlt : NpF.lt (sat.getD (firstMinIdx sat) (.fin 0)) (.fin 1) = true :=
      npfLtOfNotLtOfLt hmin hs0lt (hnanMem s0 hs0mem) (hnanMem _ hm_mem) (by decide)
    rw [hidx]
    intro hz
    have hp := hpinf (firstMinIdx sat) (hutlen ▸ hi0len) hz
    rw [hp] at hmlt
    simp [NpF.lt] at hmlt

unseal Rat.add Rat.mul Rat.sub Rat.inv in
/-- Witness for C4 at `vmax = 1`, `lamb = 1`, `u_task = [0, 3]`: the zero-error
dimension gets `sat = +inf` and is not below one, no entry is `nan`, the list
does contain an entry below one, and the binding (argmin) dimension has error
`3 ≠ 0`. -/
theorem osc_velocity_sat_zero_guard_witness :
    ((0 : ℚ) < 1 ∧ (0 : ℕ) < ([(0 : ℚ), 3]).length ∧ ([(0 : ℚ), 3]).getD 0 0 = 0 ∧
      (satVec 1 1 [0, 3]).any (fun s => NpF.lt s (.fin 1)) = true) ∧
    (satVec 1 1 [0, 3]).getD 0 (.fin 0) = .pinf ∧
    NpF.lt ((satVec 1 1 [0, 3]).getD 0 (.fin 0)) (.fin 1) = false ∧
    (satVec 1 1 [0, 3]).getD 0 (.fin 0) ≠ .nan ∧
    ([(0 : ℚ), 3]).getD (argminNp (satVec 1 1 [0, 3])) 0 ≠ 0 := by
  refine ⟨⟨by decide, by decide, by decide, by decide⟩,
    (osc_velocity_sat_zero_guard 1 1 [0, 3] 0 (by decide)).1 (by decide) (by decide),
    (osc_velocity_sat_zero_guard 1 1 [0, 3] 0 (by decide)).2.1 (by decide) (by decide),
    (osc_velocity_sat_zero_guard 1 1 [0, 3] 0 (by decide)).2.2.1 0,
    (osc_velocity_sat_zero_guard 1 1 [0, 3] 0 (by decide)).2.2.2 (by decide)⟩

/-- Claim C5 (amended): without `vmax`, the branch between joint-space damping
and task-space velocity compensation is decided by `np.all(target_vel == 0)`
over the FULL six-entry target velocity — not over the active dimensions only:
when every entry of `target_vel` is exactly zero the result is
`(-kv * M dq, -kp * u_task)`, otherwise the base torque is zero and
`kv * (dx - target_vel[active])` is subtracted from `-kp * u_task`. -/
theorem osc_unlimited_branch_full_vector_condition (kp kv : ℚ) (nJ : ℕ)
    (mask : List Bool) (Mmat J : List (List ℚ)) (dq tv ut : List ℚ) :
    (tv.all (fun t => decide (t = 0)) = true ↔ ∀ t ∈ tv, t = 0) ∧
    (tv.all (fun t => decide (t = 0)) = true →
      unlimitedLaw kp kv nJ mask Mmat J dq tv ut
        = (scalVec (-kv) (matVec Mmat dq), ut.map (fun x => -kp * x))) ∧
    (tv.all (fun t => decide (t = 0)) = false →
      unlimitedLaw kp kv nJ mask Mmat J dq tv ut
        = (List.replicate nJ 0,
           vecSub (ut.map (fun x => -kp * x))
             (scalVec kv (vecSub (matVec J dq) (boolMask mask tv))))) := by
  refine ⟨by simp, fun h => ?_, fun h => ?_⟩
  · unfold unlimitedLaw
    rw [if_pos h]
  · unfold unlimitedLaw
    rw [if_neg (by simp [h])]

unseal Rat.add Rat.mul Rat.sub Rat.inv in
/-- Counterexample to C5 as frozen: two calls to `generate` that differ only in
an INACTIVE entry of `target_vel` (the mask selects only the x dimension, both
velocities are zero on it) return different torques — the code switches on the
full vector, so the second call does not use the joint-space damping branch the
claim prescribes for it. -/
theorem osc_unlimited_branch_counterexample :
    OSC.generate fixJ2 ⟨1, 1, 2, 0, 1 / 2, none, [true, false, false, false, false, false], 1, 2, false, false⟩
        [] [0, 0, 0] [0, 0] [0, 1] [1, 0, 0, 0, 0, 0] (some [0, 0, 0, 0, 0, 1]) "EE" none
      ≠ OSC.generate fixJ2 ⟨1, 1, 2, 0, 1 / 2, none, [true, false, false, false, false, false], 1, 2, false, false⟩
        [] [0, 0, 0] [0, 0] [0, 1] [1, 0, 0, 0, 0, 0] (some [0, 0, 0, 0, 0, 0]) "EE" none := by
  decide

unseal Rat.add Rat.mul Rat.sub Rat.inv in
/-- Witness for the amended C5: a target velocity that vanishes on every active
dimension but not on the full vector takes the task-space compensation branch. -/
theorem osc_unlimited_branch_full_vector_condition_witness :
    (([(0 : ℚ), 0, 0, 0, 0, 1]).all (fun t => decide (t = 0)) = false) ∧
    unlimitedLaw 1 2 2 [true, false, false, false, false, false]
        [[1, 0], [0, 1]] [[1, 0]] [0, 1] [0, 0, 0, 0, 0, 1] [-1]
      = (List.replicate 2 0,
         vecSub (([(-1 : ℚ)]).map (fun x => -1 * x))
           (scalVec 2 (vecSub (matVec [[1, 0]] [0, 1])
             (boolMask [true, false, false, false, false, false] [0, 0, 0, 0, 0, 1])))) :=
  ⟨by decide,
   (osc_unlimited_branch_full_vector_condition 1 2 2
     [true, false, false, false, false, false] [[1, 0], [0, 1]] [[1, 0]] [0, 1]
     [0, 0, 0, 0, 0, 1] [-1]).2.2 (by decide)⟩

/-- Claim C6 (amended): the integral step leaves the state and task force
unchanged when `ki = 0`; when `ki ≠ 0` (and the position branch assigned
`xyz`) it adds `target[:3] - xyz` to the persistent 3-entry state and then
subtracts `ki * state` elementwise from the mask-restricted task force — which
succeeds only when that restricted vector has exactly three entries (so the
subtraction hits the position components only for a position-selecting mask),
and raises a broadcast `ValueError` for every other restricted length. -/
theorem osc_integral_step_behavior (ki : ℚ) (st xyzv target : List ℚ)
    (u_task : List NpF) :
    (integralStep 0 st (some xyzv) target u_task = .ok (st, u_task)) ∧
    (ki ≠ 0 → st.length = 3 → xyzv.length = 3 → 3 ≤ target.length →
      u_task.length = 3 →
      integralStep ki st (some xyzv) target u_task
        = .ok (vecAdd st (vecSub (target.take 3) xyzv),
            List.zipWith NpF.sub u_task
              ((vecAdd st (vecSub (target.take 3) xyzv)).map
                (fun s => NpF.fin (ki * s))))) ∧
    (ki ≠ 0 → st.length = 3 → xyzv.length = 3 → 3 ≤ target.length →
      u_task.length ≠ 3 →
      integralStep ki st (some xyzv) target u_task = .error .valueError) := by
  refine ⟨by simp [integralStep], ?_, ?_⟩
  · intro hki hst hxyz htl hu
    have hlen : (vecAdd st (vecSub (target.take 3) xyzv)).length = 3 := by
      simp [vecAdd, vecSub, hst, hxyz, htl]
    unfold integralStep
    rw [if_neg hki]
    simp [ibSub, List.length_map, hlen, hu]
  · intro hki hst hxyz htl hu
    have hlen : (vecAdd st (vecSub (target.take 3) xyzv)).length = 3 := by
      simp [vecAdd, vecSub, hst, hxyz, htl]
    unfold integralStep
    rw [if_neg hki]
    have hne : ¬((3 : ℕ) = u_task.length) := fun hh => hu hh.symm
    simp [ibSub, List.length_map, hlen, hne]

unseal Rat.add Rat.mul Rat.sub Rat.inv in
/-- Counterexample to C6 as frozen: with all six task dimensions controlled and
`ki = 1`, `generate` does not subtract the integral term from the position
components — it raises a broadcast `ValueError`, because the length-6
restricted task force cannot absorb the 3-entry integral state. -/
theorem osc_integral_broadcast_counterexample :
    OSC.generate fixJ6 ⟨1, 1, 2, 1, 1 / 2, none, [true, true, true, true, true, true], 6, 2, false, false⟩
        [] [0, 0, 0] [0, 0] [0, 1] [1, 0, 0, 0, 0, 0] none "EE" none
      = .error .valueError := by
  decide

unseal Rat.add Rat.mul Rat.sub Rat.inv in
/-- Witness for the amended C6 at a 3-entry restricted task force: the state
accumulates `target[:3] - xyz` and `ki * state` is subtracted elementwise. -/
theorem osc_integral_step_behavior_witness :
    ((1 : ℚ) ≠ 0 ∧ ([(0 : ℚ), 0, 0]).length = 3 ∧ ([(0 : ℚ), 0, 0]).length = 3 ∧
      3 ≤ ([(1 : ℚ), 0, 0, 0, 0, 0]).length ∧
      ([NpF.fin 1, NpF.fin 0, NpF.fin 0]).length = 3) ∧
    integralStep 1 [0, 0, 0] (some [0, 0, 0]) [1, 0, 0, 0, 0, 0]
        [NpF.fin 1, NpF.fin 0, NpF.fin 0]
      = .ok (vecAdd [0, 0, 0] (vecSub (([(1 : ℚ), 0, 0, 0, 0, 0]).take 3) [0, 0, 0]),
          List.zipWith NpF.sub [NpF.fin 1, NpF.fin 0, NpF.fin 0]
            ((vecAdd [0, 0, 0] (vecSub (([(1 : ℚ), 0, 0, 0, 0, 0]).take 3) [0, 0, 0])).map
              (fun s => NpF.fin (1 * s)))) :=
  ⟨⟨by decide, by decide, by decide, by decide, by decide⟩,
   (osc_integral_step_behavior 1 [0, 0, 0] [0, 0, 0] [1, 0, 0, 0, 0, 0]
     [NpF.fin 1, NpF.fin 0, NpF.fin 0]).2.1 (by decide) (by decide) (by decide)
     (by decide) (by decide)⟩

/-- Claim C7: `generate` fails with the length assertion (the spec's
`InvalidInputError`) whenever `target` is not length 6 or a given `target_vel`
is not length 6; the failure happens before any computation — the result does
not depend on the external model at all (no RobotModel query) and no state is
produced (the integral state is untouched). -/
theorem osc_target_length_validation (E1 E2 : OscExt) (cfg : Config)
    (nc : List (List ℚ → List ℚ → List ℚ)) (st q dq target : List ℚ)
    (tv : Option (List ℚ)) (rf : String) (off : Option (List ℚ))
    (h : target.length ≠ 6 ∨ ∃ tv0, tv = some tv0 ∧ tv0.length ≠ 6) :
    OSC.generate E1 cfg nc st q dq target tv rf off = .error .assertionError ∧
    OSC.generate E1 cfg nc st q dq target tv rf off
      = OSC.generate E2 cfg nc st q dq target tv rf off := by
  have key : ∀ E : OscExt, OSC.generate E cfg nc st q dq target tv rf off
      = .error .assertionError := by
    intro E
    unfold OSC.generate
    by_cases hlen : target.length = 6
    · rcases h with h | ⟨tv0, rfl, h6⟩
      · exact absurd hlen h
      · rw [if_neg (by simp [hlen])]
        simp [h6]
    · rw [if_pos hlen]
  exact ⟨key E1, (key E1).trans (key E2).symm⟩

/-- Witness for C7 at a length-5 target, with two external models that differ
in their gravity vector: both calls fail identically with the assertion. -/
theorem osc_target_length_validation_witness :
    (([(1 : ℚ), 2, 3, 4, 5]).length ≠ 6 ∨
      ∃ tv0, (none : Option (List ℚ)) = some tv0 ∧ tv0.length ≠ 6) ∧
    OSC.generate fixJ2 ⟨1, 1, 2, 0, 1 / 2, none, [true, false, false, false, false, false], 1, 2, false, false⟩
        [] [0, 0, 0] [0, 0] [0, 1] [1, 2, 3, 4, 5] none "EE" none = .error .assertionError ∧
    OSC.generate fixJ2 ⟨1, 1, 2, 0, 1 / 2, none, [true, false, false, false, false, false], 1, 2, false, false⟩
        [] [0, 0, 0] [0, 0] [0, 1] [1, 2, 3, 4, 5] none "EE" none
      = OSC.generate fixJ2g ⟨1, 1, 2, 0, 1 / 2, none, [true, false, false, false, false, false], 1, 2, false, false⟩
        [] [0, 0, 0] [0, 0] [0, 1] [1, 2, 3, 4, 5] none "EE" none :=
  ⟨Or.inl (by decide),
   (osc_target_length_validation fixJ2 fixJ2g
     ⟨1, 1, 2, 0, 1 / 2, none, [true, false, false, false, false, false], 1, 2, false, false⟩
     [] [0, 0, 0] [0, 0] [0, 1] [1, 2, 3, 4, 5] none "EE" none (Or.inl (by decide))).1,
   (osc_target_length_validation fixJ2 fixJ2g
     ⟨1, 1, 2, 0, 1 / 2, none, [true, false, false, false, false, false], 1, 2, false, false⟩
     [] [0, 0, 0] [0, 0] [0, 1] [1, 2, 3, 4, 5] none "EE" none (Or.inl (by decide))).2⟩

/-- Claim C8 (amended): `__init__` performs no gain validation — a negative
`kv` is accepted without any error and no `ConfigurationError` exists — while
`kv = 0` raises `ZeroDivisionError` from the derivation `lamb = kp / kv`, so
the division by zero is never silent. -/
theorem osc_init_no_gain_validation (sqrtFn : ℚ → ℚ) (nJ : ℕ) (kp : ℚ)
    (ko : Option ℚ) (ki : ℚ) (vmax : Option ℚ) (cd : Option (List Bool))
    (ug uc : Bool) :
    OSC.init sqrtFn nJ kp ko (some 0) ki vmax cd ug uc = .error .zeroDivisionError ∧
    ∀ kv : ℚ, kv ≠ 0 →
      OSC.init sqrtFn nJ kp ko (some kv) ki vmax cd ug uc
        = .ok ⟨kp, ko.getD kp, kv, ki, kp / kv, vmax,
            cd.getD [true, true, true, false, false, false],
            countTrue (cd.getD [true, true, true, false, false, false]), nJ, ug, uc⟩ := by
  constructor
  · simp [OSC.init, pyDiv]
  · intro kv hkv
    simp [OSC.init, pyDiv, hkv]

unseal Rat.add Rat.mul Rat.sub Rat.inv in
/-- Counterexample to C8 as frozen: constructing with `kv = -1` succeeds, no
`ConfigurationError` is raised for the structurally invalid negative damping
gain. -/
theorem osc_init_negative_kv_accepted :
    OSC.init id 2 1 none (some (-1)) 0 none none true false
      = .ok ⟨1, 1, -1, 0, -1, none, [true, true, true, false, false, false], 3, 2, true, false⟩ := by
  decide

unseal Rat.add Rat.mul Rat.sub Rat.inv in
/-- Witness for the amended C8: `kv = 0` fails loudly and `kv = 3` is
accepted with `lamb = 1/3`. -/
theorem osc_init_no_gain_validation_witness :
    ((3 : ℚ) ≠ 0) ∧
    OSC.init id 2 1 none (some 0) 0 none none true false = .error .zeroDivisionError ∧
    OSC.init id 2 1 none (some 3) 0 none none true false
      = .ok ⟨1, (none : Option ℚ).getD 1, 3, 0, 1 / 3, none,
          (none : Option (List Bool)).getD [true, true, true, false, false, false],
          countTrue ((none : Option (List Bool)).getD [true, true, true, false, false, false]),
          2, true, false⟩ :=
  ⟨by decide, (osc_init_no_gain_validation id 2 1 none 0 none none true false).1,
   (osc_init_no_gain_validation id 2 1 none 0 none none true false).2 3 (by decide)⟩

/-- Claim C9: whenever `ki ≠ 0` and none of the first three mask flags is set,
the integral step of `generate` reads the local `xyz` that only the position
branch assigns, so the call fails with the Python undefined-name error instead
of returning a torque vector. -/
theorem osc_orientation_only_integral_name_error (E : OscExt) (cfg : Config)
    (nc : List (List ℚ → List ℚ → List ℚ)) (st q dq target : List ℚ)
    (tv : Option (List ℚ)) (rf : String) (off : Option (List ℚ))
    (hlen : target.length = 6) (htv : ∀ tv0, tv = some tv0 → tv0.length = 6)
    (hki : cfg.ki ≠ 0) (hmask : countTrue (cfg.ctrlr_dof.take 3) = 0) :
    OSC.generate E cfg nc st q dq target tv rf off = .error .nameError := by
  unfold OSC.generate
  rw [if_neg (by simp [hlen])]
  have hb : (buildUTask E cfg.ko cfg.kp cfg.ctrlr_dof q target rf (off.getD [0, 0, 0])).1
      = none := by
    simp [buildUTask, hmask]
  rcases tv with _ | tv0
  · simp only []
    rw [hb]
    simp [integralStep, hki]
  · have h6 := htv tv0 rfl
    simp only []
    rw [if_neg (by simp [h6])]
    rw [hb]
    simp [integralStep, hki]

unseal Rat.add Rat.mul Rat.sub Rat.inv in
/-- Witness for C9: an orientation-only mask with `ki = 1` makes `generate`
fail with the undefined-name error. -/
theorem osc_orientation_only_integral_name_error_witness :
    (([(1 : ℚ), 0, 0, 0, 0, 0]).length = 6 ∧ (1 : ℚ) ≠ 0 ∧
      countTrue (([false, false, false, true, true, false] : List Bool).take 3) = 0) ∧
    OSC.generate fixJ6 ⟨1, 1, 2, 1, 1 / 2, none, [false, false, false, true, true, false], 2, 2, false, false⟩
        [] [0, 0, 0] [0, 0] [0, 1] [1, 0, 0, 0, 0, 0] none "EE" none = .error .nameError :=
  ⟨⟨by decide, by decide, by decide⟩,
   osc_orientation_only_integral_name_error fixJ6
     ⟨1, 1, 2, 1, 1 / 2, none, [false, false, false, true, true, false], 2, 2, false, false⟩
     [] [0, 0, 0] [0, 0] [0, 1] [1, 0, 0, 0, 0, 0] none "EE" none rfl
     (fun tv0 h => by cases h) (by decide) (by decide)⟩

/-- Claim C10: the six-entry task error built by `generate` computes its
orientation part from the rotation matrix of the fixed frame `"EE"` only, while
the position part uses the supplied reference frame; consequently the
orientation components (entries 3 to 5) are identical for any two values of
`ref_frame` at the same joint state and target. -/
theorem osc_orientation_error_ref_frame_invariant (E : OscExt) (ko kp : ℚ)
    (mask : List Bool) (q target : List ℚ) (rf1 rf2 : String) (off : List ℚ) :
    (buildUTask E ko kp mask q target rf1 off).2.drop 3
      = (buildUTask E ko kp mask q target rf2 off).2.drop 3 := by
  have hlen : ∀ v : List ℚ, (pad3 v).length = 3 := by
    intro v
    simp [pad3]
  unfold buildUTask
  by_cases h : 0 < countTrue (mask.take 3)
  · simp only [if_pos h]
    rw [drop3Append _ _ (hlen _), drop3Append _ _ (hlen _)]
  · simp only [if_neg h]
